import Mathlib

/-!
Shallow embedding of the rust-media playback library (pcwalton/rust-media)
and proofs about it.

Every definition is translated from the named Rust source item.  Machine
integers (`i64`, `c_int`, `usize`, `u8`, `u16`) are modelled as `Int` or
`Nat`, with an explicit `% 2^w` reduction wherever the source performs a
narrowing cast.  Fallible operations (`Result<_, ()>`) are modelled as
`Option`; panics (`unwrap` on `None`, out-of-bounds indexing) are modelled
as a distinct failure value wherever a claim depends on the distinction.
-/

namespace RustMedia

/-- Timestamp (src/timing.rs): a pair of `ticks : i64` and
`ticks_per_second : f64`.  Only exact integral rates (100, 1000, ...) occur in
the code paths under study, so the rate is carried as a `Nat`. -/
structure Timestamp where
  ticks : Int
  ticksPerSecond : Nat
deriving DecidableEq, Repr

/-- RgbColor (src/pixelformat.rs): three `u8` components. -/
structure RgbColor where
  r : Nat
  g : Nat
  b : Nat
deriving DecidableEq, Repr

/-- PixelFormat (src/pixelformat.rs): the runtime pixel-format tag.
`Indexed` carries its palette (a borrowed slice of `RgbColor` in the source). -/
inductive PixelFormat where
  | i420
  | nv12
  | indexed (palette : List RgbColor)
  | rgb24
deriving DecidableEq, Repr

/-- ConvertPixelFormat for runtime `PixelFormat` pairs
(src/pixelformat.rs, `impl ConvertPixelFormat<PixelFormat> for PixelFormat`,
lines 273-332).  Each arm of the source `match` delegates to a concrete
conversion routine every one of whose return paths is `Ok(())` (the pixel
plane data never influences the returned `Result`), so the delegate result is
the constant success value here; the catch-all arm returns `Err(())`,
modelled as `none`. -/
def PixelFormat.convert : PixelFormat → PixelFormat → Option Unit
  | .i420, .i420 => some ()
  | .nv12, .i420 => some ()
  | .i420, .rgb24 => some ()
  | .indexed _, .rgb24 => some ()
  | .rgb24, .rgb24 => some ()
  | _, _ => none

/-- RegisteredVideoDecoder (src/videodecoder.rs): a registry entry.  Lookup
consults only the `id: [u8; 4]` field; the constructor function, irrelevant
to lookup, is omitted. -/
structure RegisteredVideoDecoder where
  id : List Nat
deriving DecidableEq, Repr

/-- RegisteredVideoDecoder::get (src/videodecoder.rs lines 64-72): linear scan
of the static table, `Err(())` (here `none`) when no id matches.  The static
table is passed as a parameter so the registry can be instantiated per
configuration. -/
def RegisteredVideoDecoder.get (table : List RegisteredVideoDecoder)
    (codecId : List Nat) : Option RegisteredVideoDecoder :=
  match table with
  | [] => none
  | d :: rest => if d.id = codecId then some d else RegisteredVideoDecoder.get rest codecId

/-- RegisteredAudioDecoder (src/audiodecoder.rs): a registry entry, `id` only
(see RegisteredVideoDecoder). -/
structure RegisteredAudioDecoder where
  id : List Nat
deriving DecidableEq, Repr

/-- RegisteredAudioDecoder::get (src/audiodecoder.rs lines 59-67). -/
def RegisteredAudioDecoder.get (table : List RegisteredAudioDecoder)
    (codecId : List Nat) : Option RegisteredAudioDecoder :=
  match table with
  | [] => none
  | d :: rest => if d.id = codecId then some d else RegisteredAudioDecoder.get rest codecId

/-- RegisteredContainerReader (src/container.rs): a registry entry; lookup
consults only `mime_types`. -/
structure RegisteredContainerReader where
  mimeTypes : List String
deriving DecidableEq, Repr

/-- RegisteredContainerReader::get (src/container.rs lines 137-145): the first
entry whose `mime_types` list contains the query string, else `Err(())`. -/
def RegisteredContainerReader.get (table : List RegisteredContainerReader)
    (mimeType : String) : Option RegisteredContainerReader :=
  match table with
  | [] => none
  | r :: rest =>
    if r.mimeTypes.contains mimeType then some r
    else RegisteredContainerReader.get rest mimeType

/-- VIDEO_DECODERS (src/videodecoder.rs), in the configuration without macOS
and without the ffmpeg feature: the VP8 decoder (id `VP80`) and the GIF
decoder (id `GIFf`). -/
def VIDEO_DECODERS : List RegisteredVideoDecoder :=
  [⟨[86, 80, 56, 48]⟩, ⟨[71, 73, 70, 102]⟩]

/-- AUDIO_DECODERS (src/audiodecoder.rs), same configuration: the Vorbis
decoder (id `vorb`). -/
def AUDIO_DECODERS : List RegisteredAudioDecoder :=
  [⟨[118, 111, 114, 98]⟩]

/-- CONTAINER_READERS (src/container.rs): MKV, MP4 and GIF readers with their
registered MIME type lists. -/
def CONTAINER_READERS : List RegisteredContainerReader :=
  [⟨["video/webm", "video/x-matroska"]⟩,
   ⟨["audio/mp4", "audio/quicktime", "video/mp4", "video/quicktime"]⟩,
   ⟨["image/gif"]⟩]

/-- GifColorType (src/containers/gif.rs, ffi module): one RGB palette entry
with `u8` components. -/
structure GifColorType where
  Red : Nat
  Green : Nat
  Blue : Nat
deriving DecidableEq, Repr

/-- GraphicsControlBlock (src/containers/gif.rs): of its fields only
`DelayTime` (a `c_int`, in 1/100 s units) is consumed by `get_time`; the
disposal mode, user-input flag and transparent color play no part in the
claims under study and are omitted. -/
structure GraphicsControlBlock where
  DelayTime : Int
deriving DecidableEq, Repr

/-- ExtensionBlock (src/containers/gif.rs): only the `Graphics` variant
(carrying a parsed graphics-control block) is distinguished by the timing
code; the comment/plaintext/application/other variants all behave alike
there and collapse to `Other`. -/
inductive ExtensionBlock where
  | Graphics (block : GraphicsControlBlock)
  | Other
deriving DecidableEq, Repr

/-- SavedImage (src/containers/gif.rs): one decoded GIF image as stored by
the container.  `imageColorMap` is the local color table from the image
descriptor (`ImageDesc.ColorMap`), `rasterBits` the Width x Height array of
palette indices produced by the LZW pass, `extensionBlocks` the extension
blocks attached to this image. -/
structure SavedImage where
  imageColorMap : Option (List GifColorType)
  rasterBits : List Nat
  extensionBlocks : List ExtensionBlock
deriving DecidableEq, Repr

/-- FileType / GifFileType (src/containers/gif.rs): the fields of the open
GIF file consumed by the container adapter.  `sWidth`/`sHeight` are the
logical screen dimensions, `sColorMap` the global color table,
`extensionBlocks` the file-level extension blocks. -/
structure FileType where
  sWidth : Int
  sHeight : Int
  sColorMap : Option (List GifColorType)
  savedImages : List SavedImage
  extensionBlocks : List ExtensionBlock
deriving DecidableEq, Repr

/-- The color map selected by FrameImpl::len and FrameImpl::read
(src/containers/gif.rs lines 640-643 and 651-654): the image's local table if
present, otherwise the global one; the source `unwrap()`s the global table,
so its absence (a panic) is `none` here. -/
def activeColorMap (file : FileType) (img : SavedImage) : Option (List GifColorType) :=
  match img.imageColorMap with
  | some map => some map
  | none => file.sColorMap

/-- FrameImpl::len (src/containers/gif.rs lines 637-645):
`2 + 3 * palette size + raster size`.  `none` models the panics (image index
out of bounds, missing color table). -/
def FrameImpl.len (file : FileType) (imageIndex : Nat) : Option Nat := do
  let img ← file.savedImages[imageIndex]?
  let cm ← activeColorMap file img
  pure (2 + cm.length * 3 + img.rasterBits.length)

/-- The two bytes emitted by `write_u16::<LittleEndian>(n as u16)`: the value
is first truncated to 16 bits, then split little-endian. -/
def u16LEBytes (n : Nat) : List Nat :=
  [n % 65536 % 256, n % 65536 / 256]

/-- FrameImpl::read (src/containers/gif.rs lines 647-668): writes the palette
count as a little-endian `u16`, then each palette entry as an R,G,B triple,
then the raster index array.  The caller (the player) allocates exactly
`FrameImpl.len` bytes, so the buffer writes cannot overflow; the produced
byte sequence is returned. -/
def FrameImpl.read (file : FileType) (imageIndex : Nat) : Option (List Nat) := do
  let img ← file.savedImages[imageIndex]?
  let cm ← activeColorMap file img
  pure (u16LEBytes cm.length ++
        (cm.map (fun c => [c.Red, c.Green, c.Blue])).flatten ++
        img.rasterBits)

/-- The inner summation of get_time (src/containers/gif.rs lines 690-694 and
697-701): add the `DelayTime` of every graphics-control extension block in
the list, left to right. -/
def sumGraphicsDelays (blocks : List ExtensionBlock) : Int :=
  blocks.foldl
    (fun acc b =>
      match b with
      | .Graphics g => acc + g.DelayTime
      | .Other => acc)
    0

/-- The outer loop of get_time (src/containers/gif.rs lines 686-695):
enumerate the saved images, break as soon as the index reaches `imageIndex`,
otherwise accumulate that image's graphics-control delays. -/
def getTimeGo (imageIndex : Nat) : Nat → Int → List SavedImage → Int
  | _, acc, [] => acc
  | i, acc, img :: rest =>
    if imageIndex ≤ i then acc
    else getTimeGo imageIndex (i + 1) (acc + sumGraphicsDelays img.extensionBlocks) rest

/-- get_time (src/containers/gif.rs lines 684-707): sum the graphics-control
delays of the images before `imageIndex`; if that sum is zero, fall back to
accumulating the file-level graphics-control delays; the result has
`ticks_per_second = 100`. -/
def getTime (file : FileType) (imageIndex : Nat) : Timestamp :=
  let t := getTimeGo imageIndex 0 0 file.savedImages
  let t := if t = 0 then sumGraphicsDelays file.extensionBlocks else t
  { ticks := t, ticksPerSecond := 100 }

/-- FrameImpl::time (src/containers/gif.rs lines 674-676). -/
def FrameImpl.time (file : FileType) (imageIndex : Nat) : Timestamp :=
  getTime file imageIndex

/-- DecodedVideoFrameImpl (src/containers/gif.rs lines 772-778): the frame
returned by the GIF video decoder. -/
structure DecodedVideoFrameImpl where
  width : Int
  height : Int
  palette : List RgbColor
  pixels : List Nat
  presentationTime : Timestamp
deriving DecidableEq, Repr

/-- DecodedVideoFrameImpl::pixel_format (src/containers/gif.rs lines
793-797): an `Indexed` format carrying the frame's palette. -/
def DecodedVideoFrameImpl.pixelFormat (f : DecodedVideoFrameImpl) : PixelFormat :=
  .indexed f.palette

/-- The palette-reading loop of VideoDecoderImpl::decode_frame
(src/containers/gif.rs lines 741-754): read `n` R,G,B triples; any read of
fewer than 3 bytes is an error.  Returns the palette and the unread rest. -/
def readPalette : Nat → List Nat → Option (List RgbColor × List Nat)
  | 0, data => some ([], data)
  | n + 1, r :: g :: b :: rest =>
    match readPalette n rest with
    | some (p, rem) => some (⟨r, g, b⟩ :: p, rem)
    | none => none
  | _ + 1, _ => none

/-- VideoDecoderImpl::decode_frame (src/containers/gif.rs lines 733-770):
read a little-endian `u16` palette size, then that many R,G,B triples, then
`read_to_end` the remaining bytes as the pixel array.  `width` and `height`
are the decoder's construction parameters (the logical screen dimensions the
player passes from the video track). -/
def VideoDecoderImpl.decodeFrame (width height : Int) (data : List Nat)
    (presentationTime : Timestamp) : Option DecodedVideoFrameImpl :=
  match data with
  | b0 :: b1 :: rest =>
    let paletteSize := b0 + 256 * b1
    match readPalette paletteSize rest with
    | some (palette, pixels) => some ⟨width, height, palette, pixels, presentationTime⟩
    | none => none
  | _ => none

/-- The reinterpretation decode_frame applies to each stored GIF palette
entry when it parses the written bytes back into an `RgbColor`. -/
def gifColorToRgb (c : GifColorType) : RgbColor :=
  ⟨c.Red, c.Green, c.Blue⟩

/-- The two NAL-unit length bytes written by DecoderImpl::set_headers
(src/platform/macos/videotoolbox.rs lines 194-195 and 200-201):
`(len >> 8) as u8` then `len as u8`. -/
def nalLenBytes (len : Nat) : List Nat :=
  [len / 256 % 256, len % 256]

/-- The AVCC chunk built by DecoderImpl::set_headers
(src/platform/macos/videotoolbox.rs lines 178-202): a six-byte prefix
(`0x01`, bytes 1-3 of the first sequence header, `0xFF`, then the
sequence-header count OR-ed with `0b1110_0000`), the length-prefixed sequence
headers, a one-byte picture-header count, and the length-prefixed picture
headers.  Indexing `seq_headers[0][1..=3]` panics when there is no sequence
header or the first one is shorter than 4 bytes; both panics are `none`. -/
def buildAvcc (seqHeaders pictHeaders : List (List Nat)) : Option (List Nat) :=
  match seqHeaders with
  | [] => none
  | sh0 :: _ =>
    match sh0 with
    | _ :: b1 :: b2 :: b3 :: _ =>
      some ([0x01, b1, b2, b3, 0xff, Nat.lor (seqHeaders.length % 256) 0xe0] ++
            (seqHeaders.map (fun s => nalLenBytes s.length ++ s)).flatten ++
            [pictHeaders.length % 256] ++
            (pictHeaders.map (fun s => nalLenBytes s.length ++ s)).flatten)
    | _ => none

/-- VideoPlayerInfo (src/playback.rs lines 302-311): for the scheduler claims
only the queue `frames` matters; each queued `DecodedVideoFrame` trait object
is represented by its `presentation_time`, the only datum the scheduler reads
from it.  The codec handle, track number and intra-cluster frame index do not
influence the queue logic and are absorbed into the abstract input stream. -/
structure VideoPlayerInfo where
  frames : List Timestamp
deriving DecidableEq, Repr

/-- AudioPlayerInfo (src/playback.rs lines 314-323): the per-channel sample
accumulator.  The `f32` sample values never influence control flow and are
abstracted as integers. -/
structure AudioPlayerInfo where
  samples : Option (List (List Int))
deriving DecidableEq, Repr

/-- Player (src/playback.rs lines 23-40): the scheduler state. -/
structure Player where
  video : Option VideoPlayerInfo
  audio : Option AudioPlayerInfo
  frameDelay : Option Int
  lastFramePresentationTime : Option Timestamp
  nextFramePresentationTime : Option Timestamp
deriving DecidableEq, Repr

/-- DecodedFrame (src/playback.rs lines 325-328): the value returned by a
successful `advance()`. -/
structure DecodedFrame where
  videoFrame : Option Timestamp
  audioSamples : Option (List (List Int))
deriving DecidableEq, Repr

/-- The fold of the (Rust 1.0 era) `Iterator::min_by` with key
`frame.presentation_time().ticks`, tracking the index: the running best pair
is replaced only on a strictly smaller key, so the first minimum wins ties.
Used at src/playback.rs lines 191 and 278-284. -/
def minByTicksGo (i : Nat) (best : Nat × Timestamp) : List Timestamp → Nat × Timestamp
  | [] => best
  | t :: ts => minByTicksGo (i + 1) (if t.ticks < best.2.ticks then (i, t) else best) ts

/-- `min_by` over a frame queue: `none` on an empty queue, otherwise the
index and timestamp of the first frame of minimal ticks. -/
def minByTicks : List Timestamp → Option (Nat × Timestamp)
  | [] => none
  | t :: ts => some (minByTicksGo 1 (0, t) ts)

/-- The stale-frame removal loop of Player::decode_frame (src/playback.rs
lines 176-186): an index scans the queue, keeping frames with
`last_frame_time.ticks <= frame_time.ticks` and removing the rest; removal
shifts the later elements down, so the loop is an order-preserving filter. -/
def pruneLoop (lastFrameTime : Timestamp) : List Timestamp → List Timestamp
  | [] => []
  | t :: ts =>
    if lastFrameTime.ticks ≤ t.ticks then t :: pruneLoop lastFrameTime ts
    else pruneLoop lastFrameTime ts

/-- The pruning step as guarded in the source: it runs only when
`last_frame_presentation_time` is known. -/
def prune (last : Option Timestamp) (queue : List Timestamp) : List Timestamp :=
  match last with
  | some l => pruneLoop l queue
  | none => queue

/-- Outcome of evaluating the loop-top condition of the video inner loop. -/
inductive BreakState where
  | panicNow
  | brk
  | cont
deriving DecidableEq, Repr

/-- The loop-top condition of the video inner loop (src/playback.rs lines
136-155): with no learned `frame_delay`, break when the queue is non-empty;
with a learned delay, `unwrap` the last presentation time (a panic when it is
unknown) and break when some queued frame is within 5 ticks of
`last + frame_delay` or more than 1000 ticks past it. -/
def breakState (frameDelay : Option Int) (last : Option Timestamp)
    (queue : List Timestamp) : BreakState :=
  match frameDelay with
  | none => if queue.isEmpty then .cont else .brk
  | some d =>
    match last with
    | none => .panicNow
    | some l =>
      if queue.any (fun frame =>
          decide ((frame.ticks - (l.ticks + d)).natAbs < 5) ||
          decide (frame.ticks - (l.ticks + d) > 1000)) then .brk
      else .cont

/-- Result of the video inner loop: the final queue plus the chosen
`next_frame_presentation_time` and the unconsumed input on success; the final
queue on failure (the input stream, i.e. the supply of clusters, ran out);
or a panic. -/
inductive LoopResult where
  | ok (queue : List Timestamp) (next : Timestamp) (rest : List Timestamp)
  | err (queue : List Timestamp)
  | panic
deriving DecidableEq, Repr

/-- Exit of the video inner loop (src/playback.rs lines 189-194):
`next_frame_presentation_time` becomes the minimum-ticks queue entry.  The
loop leaves only via break, which requires a non-empty queue, so the empty
case (which would re-enter the cluster loop) is reached only with the input
exhausted and maps to failure. -/
def finishVideoLoop (queue : List Timestamp) (rest : List Timestamp) : LoopResult :=
  match minByTicks queue with
  | some (_, m) => .ok queue m rest
  | none => .err queue

/-- The video inner loop of Player::decode_frame (src/playback.rs lines
116-194) with the container and codec abstracted into `input`, the stream of
presentation times of the decoded frames the codec will produce, in decode
order (reads whose decode fails push nothing and leave the pruned queue
unchanged, so they are dropped from `input`).  Each iteration evaluates the
loop-top condition, then either stops or appends the next decoded frame to
the queue and prunes stale frames; an empty `input` models the cluster reads
failing with no further cluster, which propagates as `Err(())`. -/
def decodeVideoLoop (last : Option Timestamp) (frameDelay : Option Int) :
    List Timestamp → List Timestamp → LoopResult
  | queue, [] =>
    match breakState frameDelay last queue with
    | .panicNow => .panic
    | .brk => finishVideoLoop queue []
    | .cont => .err queue
  | queue, t :: rest =>
    match breakState frameDelay last queue with
    | .panicNow => .panic
    | .brk => finishVideoLoop queue (t :: rest)
    | .cont => decodeVideoLoop last frameDelay (prune last (queue ++ [t])) rest

/-- Result of Player::decode_frame: the updated player and the unconsumed
video input, a failure carrying the updated player (the queue mutations made
before the failing cluster read are kept), or a panic. -/
inductive DecodeResult where
  | ok (p : Player) (rest : List Timestamp)
  | err (p : Player)
  | panic
deriving DecidableEq, Repr

/-- Player::decode_frame (src/playback.rs lines 91-230) for a player with a
video track.  `videoInput` is the abstract stream of decoded video frame
presentation times (see `decodeVideoLoop`); `audioInput` is the per-channel
PCM content the audio inner loop accumulates — its values never influence
control flow, the loop always leaves `audio.samples` holding `Some` fresh
accumulator.  The audio-only path (`video = none`, src lines 124-129 and
198-225) is not modelled; no claim depends on it, and every theorem below
that touches `decodeFrame` assumes a video track. -/
def Player.decodeFrame (p : Player) (videoInput : List Timestamp)
    (audioInput : List (List Int)) : DecodeResult :=
  match p.video with
  | none => .err p
  | some video =>
    match decodeVideoLoop p.lastFramePresentationTime p.frameDelay video.frames videoInput with
    | .panic => .panic
    | .err q => .err { p with video := some ⟨q⟩ }
    | .ok q next rest =>
      let p1 : Player := { p with video := some ⟨q⟩, nextFramePresentationTime := some next }
      match p1.audio with
      | none => .ok p1 rest
      | some _ => .ok { p1 with audio := some ⟨some audioInput⟩ } rest

/-- Result of Player::advance: the decoded frame and updated player, a
failure carrying the player (whose mutations made before the failing queue
lookup are kept), or a panic. -/
inductive AdvanceResult where
  | ok (frame : DecodedFrame) (p : Player)
  | err (p : Player)
  | panic
deriving DecidableEq, Repr

/-- Steps 2 and 3 of Player::advance (src/playback.rs lines 272-298): record
`last := next`, then find the minimum-ticks queue entry (failing when the
queue is empty), remove it, and move the audio accumulator out, leaving
`None`; `unwrap` of an absent accumulator is a panic. -/
def Player.advanceRest (p0 : Player) : AdvanceResult :=
  let p : Player := { p0 with lastFramePresentationTime := p0.nextFramePresentationTime }
  match p.video with
  | some video =>
    match minByTicks video.frames with
    | none => .err p
    | some (idx, m) =>
      let p1 : Player := { p with video := some ⟨video.frames.eraseIdx idx⟩ }
      match p.audio with
      | none => .ok ⟨some m, none⟩ p1
      | some audio =>
        match audio.samples with
        | none => .panic
        | some s => .ok ⟨some m, some s⟩ { p1 with audio := some ⟨none⟩ }
  | none =>
    match p.audio with
    | none => .ok ⟨none, none⟩ p
    | some audio =>
      match audio.samples with
      | none => .panic
      | some s => .ok ⟨none, some s⟩ { p with audio := some ⟨none⟩ }

/-- Player::advance (src/playback.rs lines 265-298).  Step 1 (lines 267-270):
when the last presentation time is known, learn
`frame_delay := next.ticks - last.ticks`, `unwrap`ping the next presentation
time (a panic when it is unknown).  Then the remaining steps. -/
def Player.advance (p : Player) : AdvanceResult :=
  match p.lastFramePresentationTime with
  | some last =>
    match p.nextFramePresentationTime with
    | none => .panic
    | some next =>
      Player.advanceRest { p with frameDelay := some (next.ticks - last.ticks) }
  | none => Player.advanceRest p

/-- One client-visible operation on the player. -/
inductive Op where
  | decode
  | advance
deriving DecidableEq, Repr

/-- Drive a player through a client-chosen sequence of decode_frame /
advance calls, threading the codec output stream through the decode calls,
and collect the presentation times of the video frames returned by the
successful advance calls.  Execution stops at a panic. -/
def runOps : Player → List Timestamp → List Op → List Timestamp
  | _, _, [] => []
  | p, stream, .decode :: ops =>
    match p.decodeFrame stream [] with
    | .ok p1 rest => runOps p1 rest ops
    | .err p1 => runOps p1 [] ops
    | .panic => []
  | p, stream, .advance :: ops =>
    match p.advance with
    | .ok f p1 =>
      match f.videoFrame with
      | some t => t :: runOps p1 stream ops
      | none => runOps p1 stream ops
    | .err p1 => runOps p1 stream ops
    | .panic => []

/-- The canonical driver loop (src/example/example.rs lines 340-357):
decode_frame, then advance, repeatedly, stopping at the first failure;
collect the presentation times of the returned video frames. -/
def runAlt : Player → List Timestamp → Nat → List Timestamp
  | _, _, 0 => []
  | p, stream, n + 1 =>
    match p.decodeFrame stream [] with
    | .ok p1 rest =>
      match p1.advance with
      | .ok f p2 =>
        match f.videoFrame with
        | some t => t :: runAlt p2 rest n
        | none => runAlt p2 rest n
      | .err _ => []
      | .panic => []
    | .err _ => []
    | .panic => []

/-- The state left behind by a successful scheduling round: the player has a
video track, its last presentation time is `m`, and every queued frame is at
`m` or later. -/
@[reducible] def RoundInv (p : Player) (m : Timestamp) : Prop :=
  ∃ v, p.video = some v ∧ p.lastFramePresentationTime = some m ∧
    ∀ x ∈ v.frames, m.ticks ≤ x.ticks

/-- A concrete one-image GIF file: 1x1 logical screen, a one-entry global
color table, raster index 0, no extension blocks. -/
def gifFile1 : FileType :=
  ⟨1, 1, some [⟨0, 0, 0⟩], [⟨none, [0], []⟩], []⟩

/-- A concrete GIF file for the timing claims: two images, the first with a
graphics-control delay of 5, plus a file-level graphics-control block with a
delay of 7. -/
def gifFileT : FileType :=
  ⟨1, 1, none,
   [⟨none, [0], [.Graphics ⟨5⟩]⟩, ⟨none, [0], []⟩],
   [.Graphics ⟨7⟩]⟩

/-- A concrete player mid-playback: empty queue, learned frame delay 0, last
and next presentation time both at 5 ticks. -/
def playerEq : Player :=
  { video := some ⟨[]⟩, audio := none, frameDelay := some 0,
    lastFramePresentationTime := some ⟨5, 100⟩,
    nextFramePresentationTime := some ⟨5, 100⟩ }

/-- A fresh player with a video track and no audio track. -/
def playerFresh : Player :=
  { video := some ⟨[]⟩, audio := none, frameDelay := none,
    lastFramePresentationTime := none, nextFramePresentationTime := none }

/-- A concrete player mid-playback feeding the C4 witness: two queued frames
at 10 and 3 ticks, a pending audio accumulator, last time 2, next time 3. -/
def playerC4 : Player :=
  { video := some ⟨[⟨10, 100⟩, ⟨3, 100⟩]⟩, audio := some ⟨some [[1, 2]]⟩,
    frameDelay := none, lastFramePresentationTime := some ⟨2, 100⟩,
    nextFramePresentationTime := some ⟨3, 100⟩ }

/-- The state playerC4 reaches after one advance call. -/
def playerC4After : Player :=
  { video := some ⟨[⟨10, 100⟩]⟩, audio := some ⟨none⟩,
    frameDelay := some 1, lastFramePresentationTime := some ⟨3, 100⟩,
    nextFramePresentationTime := some ⟨3, 100⟩ }

/-- A concrete player with a video track and an empty decoded-frame queue,
feeding the C9 witness. -/
def playerC9 : Player :=
  { video := some ⟨[]⟩, audio := none, frameDelay := none,
    lastFramePresentationTime := some ⟨5, 100⟩,
    nextFramePresentationTime := some ⟨7, 100⟩ }

/-- The codec output stream of the C3 counterexample: an out-of-order
presentation time (100 before 12), as B-frame reordering legitimately
produces. -/
def streamC3 : List Timestamp :=
  [⟨5, 1000⟩, ⟨10, 1000⟩, ⟨100, 1000⟩, ⟨12, 1000⟩, ⟨13, 1000⟩]

/-- The call sequence of the C3 counterexample: two advance calls in a row
after the third decode. -/
def opsC3 : List Op :=
  [.decode, .advance, .decode, .advance, .decode, .advance, .advance, .decode, .advance]

/-- C10: the runtime pixel-format converter succeeds exactly for the five
source/destination pairs I420-to-I420, NV12-to-I420, I420-to-Rgb24,
Indexed-to-Rgb24 and Rgb24-to-Rgb24, and returns Err(()) for every other
pair (in particular for any conversion into NV12 or Indexed, and for
Rgb24-to-I420). -/
theorem convert_ok_iff (src dst : PixelFormat) :
    (PixelFormat.convert src dst).isSome = true ↔
      (src = .i420 ∧ dst = .i420) ∨ (src = .nv12 ∧ dst = .i420) ∨
      (src = .i420 ∧ dst = .rgb24) ∨ ((∃ pal, src = .indexed pal) ∧ dst = .rgb24) ∨
      (src = .rgb24 ∧ dst = .rgb24) := by
  cases src <;> cases dst <;> simp [PixelFormat.convert]

theorem videoGet_eq_none (table : List RegisteredVideoDecoder) (codecId : List Nat)
    (h : ∀ d ∈ table, d.id ≠ codecId) :
    RegisteredVideoDecoder.get table codecId = none := by
  induction table with
  | nil => rfl
  | cons d rest ih =>
    have hd : d.id ≠ codecId := h d (by simp)
    simp only [RegisteredVideoDecoder.get, if_neg hd]
    exact ih (fun x hx => h x (by simp [hx]))

theorem audioGet_eq_none (table : List RegisteredAudioDecoder) (codecId : List Nat)
    (h : ∀ d ∈ table, d.id ≠ codecId) :
    RegisteredAudioDecoder.get table codecId = none := by
  induction table with
  | nil => rfl
  | cons d rest ih =>
    have hd : d.id ≠ codecId := h d (by simp)
    simp only [RegisteredAudioDecoder.get, if_neg hd]
    exact ih (fun x hx => h x (by simp [hx]))

theorem containerGet_eq_none (table : List RegisteredContainerReader) (mime : String)
    (h : ∀ r ∈ table, mime ∉ r.mimeTypes) :
    RegisteredContainerReader.get table mime = none := by
  induction table with
  | nil => rfl
  | cons r rest ih =>
    have hr : r.mimeTypes.contains mime = false := by
      have := h r (by simp)
      simpa using this
    simp only [RegisteredContainerReader.get, hr, Bool.false_eq_true, if_false]
    exact ih (fun x hx => h x (by simp [hx]))

/-- C8: looking up a codec id registered with no video decoder and no audio
decoder, and a MIME type registered with no container reader, returns failure
(Err, not a default entry) from all three registries. -/
theorem get_unregistered_fails (vid aid : List Nat) (mime : String)
    (hv : ∀ d ∈ VIDEO_DECODERS, d.id ≠ vid)
    (ha : ∀ d ∈ AUDIO_DECODERS, d.id ≠ aid)
    (hc : ∀ r ∈ CONTAINER_READERS, mime ∉ r.mimeTypes) :
    RegisteredVideoDecoder.get VIDEO_DECODERS vid = none ∧
    RegisteredAudioDecoder.get AUDIO_DECODERS aid = none ∧
    RegisteredContainerReader.get CONTAINER_READERS mime = none :=
  ⟨videoGet_eq_none _ _ hv, audioGet_eq_none _ _ ha, containerGet_eq_none _ _ hc⟩

/-- C8 (witness): the id "XXXX" and the MIME type "text/plain" match no
registered entry, and all three lookups fail on them. -/
theorem get_unregistered_fails_witness :
    ((∀ d ∈ VIDEO_DECODERS, d.id ≠ [88, 88, 88, 88]) ∧
     (∀ d ∈ AUDIO_DECODERS, d.id ≠ [88, 88, 88, 88]) ∧
     (∀ r ∈ CONTAINER_READERS, "text/plain" ∉ r.mimeTypes)) ∧
    (RegisteredVideoDecoder.get VIDEO_DECODERS [88, 88, 88, 88] = none ∧
     RegisteredAudioDecoder.get AUDIO_DECODERS [88, 88, 88, 88] = none ∧
     RegisteredContainerReader.get CONTAINER_READERS "text/plain" = none) :=
  ⟨⟨by decide, by decide, by decide⟩,
   get_unregistered_fails [88, 88, 88, 88] [88, 88, 88, 88] "text/plain"
     (by decide) (by decide) (by decide)⟩

/-- C2 (counterexample): decode_frame does not remove queued frames whose
ticks equal last_frame_presentation_time.ticks.  From a player whose last
presentation time is 5 ticks, decoding a frame at 5 ticks leaves that frame
in the queue (the prune keeps frames with ticks equal to the last time), so
the claim that frames with ticks less than or equal to the last time are
removed is false. -/
theorem decodeFrame_keeps_tick_equal_frame :
    Player.decodeFrame playerEq [⟨5, 100⟩] [] =
      .ok { playerEq with video := some ⟨[⟨5, 100⟩]⟩,
                          nextFramePresentationTime := some ⟨5, 100⟩ } [] ∧
    playerEq.lastFramePresentationTime = some ⟨5, 100⟩ ∧
    ((5 : Int) ≤ 5) := by decide

/-- C2 (amended): the prune that runs after each video-frame decode removes
exactly the queued frames whose ticks are strictly below
last_frame_presentation_time.ticks; frames with greater or EQUAL ticks are
kept. -/
theorem mem_pruneLoop_iff (l : Timestamp) (q : List Timestamp) (t : Timestamp) :
    t ∈ pruneLoop l q ↔ t ∈ q ∧ l.ticks ≤ t.ticks := by
  induction q with
  | nil => simp [pruneLoop]
  | cons a as ih =>
    by_cases h : l.ticks ≤ a.ticks
    · simp only [pruneLoop, if_pos h, List.mem_cons, ih]
      constructor
      · rintro (rfl | ⟨ht, hle⟩)
        · exact ⟨Or.inl rfl, h⟩
        · exact ⟨Or.inr ht, hle⟩
      · rintro ⟨rfl | ht, hle⟩
        · exact Or.inl rfl
        · exact Or.inr ⟨ht, hle⟩
    · simp only [pruneLoop, if_neg h, List.mem_cons, ih]
      constructor
      · rintro ⟨ht, hle⟩
        exact ⟨Or.inr ht, hle⟩
      · rintro ⟨rfl | ht, hle⟩
        · exact absurd hle h
        · exact ⟨ht, hle⟩

theorem getTimeGo_eq (images : List SavedImage) (imageIndex : Nat) :
    ∀ (i : Nat) (acc : Int),
      getTimeGo imageIndex i acc images =
        acc + ((images.take (imageIndex - i)).map
                 (fun img => sumGraphicsDelays img.extensionBlocks)).sum := by
  induction images with
  | nil => intro i acc; simp [getTimeGo]
  | cons img rest ih =>
    intro i acc
    by_cases h : imageIndex ≤ i
    · have h0 : imageIndex - i = 0 := by omega
      simp [getTimeGo, if_pos h, h0]
    · obtain ⟨k, hk1, hk2⟩ :
          ∃ k, imageIndex - i = k + 1 ∧ imageIndex - (i + 1) = k :=
        ⟨imageIndex - (i + 1), by omega⟩
      rw [getTimeGo, if_neg h, ih (i + 1), hk2, hk1]
      simp [List.take_succ_cons]
      ring

/-- C5 (counterexample): with a file-level graphics-control delay of 7 and a
first image whose graphics-control delay is 5, image 0 is timestamped 7 ticks
(not 0), and image 1 is timestamped 5 ticks, which differs from image 0's
time plus image 0's delay (7 + 5): the zero-sum fallback onto the file-level
blocks breaks both parts of the claim. -/
theorem getTime_fallback_counterexample :
    getTime gifFileT 0 = ⟨7, 100⟩ ∧ (getTime gifFileT 0).ticks ≠ 0 ∧
    getTime gifFileT 1 = ⟨5, 100⟩ ∧
    sumGraphicsDelays [.Graphics ⟨5⟩] = 5 ∧
    (getTime gifFileT 1).ticks ≠ (getTime gifFileT 0).ticks + 5 := by decide

/-- C5 (amended): the timestamp of image i has ticks equal to the sum of the
graphics-control delays of images 0..i-1; when that sum is zero (in
particular for image 0), the ticks are instead the sum of the file-level
graphics-control delays; ticks_per_second is always 100. -/
theorem getTime_closed_form (file : FileType) (i : Nat) :
    getTime file i =
      { ticks :=
          if ((file.savedImages.take i).map
                (fun img => sumGraphicsDelays img.extensionBlocks)).sum = 0
          then sumGraphicsDelays file.extensionBlocks
          else ((file.savedImages.take i).map
                  (fun img => sumGraphicsDelays img.extensionBlocks)).sum,
        ticksPerSecond := 100 } := by
  unfold getTime
  rw [getTimeGo_eq]
  simp

theorem readPalette_roundtrip (cm : List GifColorType) (rest : List Nat) :
    readPalette cm.length ((cm.map (fun c => [c.Red, c.Green, c.Blue])).flatten ++ rest) =
      some (cm.map gifColorToRgb, rest) := by
  induction cm with
  | nil => simp [readPalette]
  | cons c cs ih => simp [readPalette, ih, gifColorToRgb]

theorem frameRead_bytes (file : FileType) (imageIndex : Nat) (img : SavedImage)
    (cm : List GifColorType)
    (himg : file.savedImages[imageIndex]? = some img)
    (hcm : activeColorMap file img = some cm) :
    FrameImpl.read file imageIndex =
      some (u16LEBytes cm.length ++
            (cm.map (fun c => [c.Red, c.Green, c.Blue])).flatten ++ img.rasterBits) := by
  simp [FrameImpl.read, himg, hcm]

theorem decodeFrame_of_bytes (width height : Int) (cm : List GifColorType)
    (raster : List Nat) (t : Timestamp) (hN : cm.length < 65536) :
    VideoDecoderImpl.decodeFrame width height
        (u16LEBytes cm.length ++
         (cm.map (fun c => [c.Red, c.Green, c.Blue])).flatten ++ raster) t =
      some ⟨width, height, cm.map gifColorToRgb, raster, t⟩ := by
  have h16 : cm.length % 65536 = cm.length := Nat.mod_eq_of_lt hN
  have hsplit : cm.length % 256 + 256 * (cm.length / 256) = cm.length :=
    Nat.mod_add_div cm.length 256
  simp only [u16LEBytes, h16, List.cons_append, List.nil_append,
    VideoDecoderImpl.decodeFrame, hsplit, List.append_assoc]
  rw [readPalette_roundtrip]

/-- C6: for a saved image whose active color map holds N colors (N below
2^16, as always for GIF) and whose raster holds width x height indices,
Frame::len is 2 + 3N + width x height, Frame::read writes a 2-byte
little-endian N, then 3N RGB bytes, then the index array, and decode_frame
applied to that buffer recovers the same N-color palette and the same index
array. -/
theorem frame_roundtrip (file : FileType) (imageIndex : Nat) (img : SavedImage)
    (cm : List GifColorType) (w h : Nat) (t : Timestamp)
    (himg : file.savedImages[imageIndex]? = some img)
    (hcm : activeColorMap file img = some cm)
    (hN : cm.length < 65536)
    (hwh : img.rasterBits.length = w * h) :
    FrameImpl.len file imageIndex = some (2 + 3 * cm.length + w * h) ∧
    FrameImpl.read file imageIndex =
      some (u16LEBytes cm.length ++
            (cm.map (fun c => [c.Red, c.Green, c.Blue])).flatten ++ img.rasterBits) ∧
    (∀ buf, FrameImpl.read file imageIndex = some buf →
      VideoDecoderImpl.decodeFrame file.sWidth file.sHeight buf t =
        some ⟨file.sWidth, file.sHeight, cm.map gifColorToRgb, img.rasterBits, t⟩ ∧
      (cm.map gifColorToRgb).length = cm.length) := by
  refine ⟨?_, frameRead_bytes file imageIndex img cm himg hcm, ?_⟩
  · simp [FrameImpl.len, himg, hcm, hwh]
    ring
  · intro buf hbuf
    rw [frameRead_bytes file imageIndex img cm himg hcm] at hbuf
    obtain rfl : _ = buf := Option.some_inj.mp hbuf
    exact ⟨decodeFrame_of_bytes file.sWidth file.sHeight cm img.rasterBits t hN, by simp⟩

/-- C6 (witness): the round trip evaluated on the concrete one-image GIF
file with a single black palette entry and a 1x1 raster. -/
theorem frame_roundtrip_witness :
    (gifFile1.savedImages[0]? = some ⟨none, [0], []⟩ ∧
     activeColorMap gifFile1 ⟨none, [0], []⟩ = some [⟨0, 0, 0⟩] ∧
     ([⟨0, 0, 0⟩] : List GifColorType).length < 65536 ∧
     ([0] : List Nat).length = 1 * 1) ∧
    (FrameImpl.len gifFile1 0 = some (2 + 3 * ([⟨0, 0, 0⟩] : List GifColorType).length + 1 * 1) ∧
     FrameImpl.read gifFile1 0 =
       some (u16LEBytes ([⟨0, 0, 0⟩] : List GifColorType).length ++
             (([⟨0, 0, 0⟩] : List GifColorType).map
                (fun c => [c.Red, c.Green, c.Blue])).flatten ++ [0]) ∧
     (∀ buf, FrameImpl.read gifFile1 0 = some buf →
       VideoDecoderImpl.decodeFrame gifFile1.sWidth gifFile1.sHeight buf ⟨0, 100⟩ =
         some ⟨gifFile1.sWidth, gifFile1.sHeight,
               ([⟨0, 0, 0⟩] : List GifColorType).map gifColorToRgb, [0], ⟨0, 100⟩⟩ ∧
       (([⟨0, 0, 0⟩] : List GifColorType).map gifColorToRgb).length =
         ([⟨0, 0, 0⟩] : List GifColorType).length)) :=
  ⟨⟨by decide, by decide, by decide, by decide⟩,
   frame_roundtrip gifFile1 0 ⟨none, [0], []⟩ [⟨0, 0, 0⟩] 1 1 ⟨0, 100⟩
     (by decide) (by decide) (by decide) (by decide)⟩

/-- C1 (counterexample): the GIF decoder output is not an RGBA32 canvas.  On
the buffer Frame::read produces for the concrete 1x1 one-image file, the
decoded frame's pixel format is Indexed (RGBA32 is not even a constructor of
the pixel-format type) and its pixel array has length 1 = width x height,
not width x height x 4. -/
theorem decodeFrame_not_rgba32 :
    FrameImpl.read gifFile1 0 = some [1, 0, 0, 0, 0, 0] ∧
    VideoDecoderImpl.decodeFrame gifFile1.sWidth gifFile1.sHeight
        [1, 0, 0, 0, 0, 0] ⟨0, 100⟩ =
      some ⟨1, 1, [⟨0, 0, 0⟩], [0], ⟨0, 100⟩⟩ ∧
    DecodedVideoFrameImpl.pixelFormat ⟨1, 1, [⟨0, 0, 0⟩], [0], ⟨0, 100⟩⟩ =
      .indexed [⟨0, 0, 0⟩] ∧
    (DecodedVideoFrameImpl.pixels ⟨1, 1, [⟨0, 0, 0⟩], [0], ⟨0, 100⟩⟩).length ≠ 1 * 1 * 4 := by
  decide

/-- C1 (amended): for every buffer produced by Frame::read, decode_frame
returns a frame in Indexed pixel format carrying the palette parsed from the
buffer; no disposal compositing is performed — the pixel array is exactly
the raw index array, of length width x height bytes (one palette index per
pixel, not four RGBA bytes). -/
theorem decodeFrame_indexed_raw (file : FileType) (imageIndex : Nat) (img : SavedImage)
    (cm : List GifColorType) (w h : Nat) (t : Timestamp) (buf : List Nat)
    (himg : file.savedImages[imageIndex]? = some img)
    (hcm : activeColorMap file img = some cm)
    (hN : cm.length < 65536)
    (hwh : img.rasterBits.length = w * h)
    (hbuf : FrameImpl.read file imageIndex = some buf) :
    ∃ frame, VideoDecoderImpl.decodeFrame file.sWidth file.sHeight buf t = some frame ∧
      frame.pixelFormat = .indexed (cm.map gifColorToRgb) ∧
      frame.pixels = img.rasterBits ∧
      frame.pixels.length = w * h := by
  rw [frameRead_bytes file imageIndex img cm himg hcm] at hbuf
  obtain rfl : _ = buf := Option.some_inj.mp hbuf
  refine ⟨⟨file.sWidth, file.sHeight, cm.map gifColorToRgb, img.rasterBits, t⟩,
    decodeFrame_of_bytes file.sWidth file.sHeight cm img.rasterBits t hN, rfl, rfl, hwh⟩

/-- C1 (amended, witness): the amended statement evaluated on the concrete
one-image GIF file. -/
theorem decodeFrame_indexed_raw_witness :
    (gifFile1.savedImages[0]? = some ⟨none, [0], []⟩ ∧
     activeColorMap gifFile1 ⟨none, [0], []⟩ = some [⟨0, 0, 0⟩] ∧
     ([⟨0, 0, 0⟩] : List GifColorType).length < 65536 ∧
     ([0] : List Nat).length = 1 * 1 ∧
     FrameImpl.read gifFile1 0 = some [1, 0, 0, 0, 0, 0]) ∧
    (∃ frame,
      VideoDecoderImpl.decodeFrame gifFile1.sWidth gifFile1.sHeight
          [1, 0, 0, 0, 0, 0] ⟨7, 100⟩ = some frame ∧
      frame.pixelFormat =
        .indexed (([⟨0, 0, 0⟩] : List GifColorType).map gifColorToRgb) ∧
      frame.pixels = [0] ∧
      frame.pixels.length = 1 * 1) :=
  ⟨⟨by decide, by decide, by decide, by decide, by decide⟩,
   decodeFrame_indexed_raw gifFile1 0 ⟨none, [0], []⟩ [⟨0, 0, 0⟩] 1 1 ⟨7, 100⟩
     [1, 0, 0, 0, 0, 0] (by decide) (by decide) (by decide) (by decide) (by decide)⟩

theorem nalChunks_length (l : List (List Nat)) :
    ((l.map (fun s => nalLenBytes s.length ++ s)).flatten).length =
      (l.map (fun s => 2 + s.length)).sum := by
  induction l with
  | nil => simp
  | cons s rest ih =>
    simp only [List.map_cons, List.flatten_cons, List.length_append, List.sum_cons, ih]
    simp only [nalLenBytes, List.length_cons, List.length_nil]

theorem lor224_mod32 (n : Nat) (h : n ≤ 31) : Nat.lor n 224 % 32 = n := by
  have h32 : ∀ i : Fin 32, Nat.lor i.val 224 % 32 = i.val := by decide
  exact h32 ⟨n, by omega⟩

/-- C7 (counterexample): the fixed prefix of the AVCC buffer is 6 bytes
(0x01, three profile bytes, 0xFF, and the seq-count byte), not 5.  For one
4-byte sequence header and one 1-byte picture header, the built AVCC has
length 16, while the claimed total 5 + (2+4) + 1 + (2+1) is 15. -/
theorem buildAvcc_counterexample :
    (buildAvcc [[0x67, 0x42, 0x00, 0x1e]] [[0x68]]).map List.length = some 16 ∧
    (16 : Nat) ≠ 5 + (2 + 4) + 1 + (2 + 1) := by decide

/-- C7 (amended): for a non-empty sequence-header list whose first header
has at least 4 bytes, the built AVCC buffer has total length 6 fixed bytes
(including the seq-count byte) plus (2 + len_i) per sequence header plus 1
picture-count byte plus (2 + len_j) per picture header; and when there are
at most 31 sequence headers, the low 5 bits of byte 5 (the byte after the
0xFF byte) equal the number of sequence headers written. -/
theorem buildAvcc_spec (seqHeaders pictHeaders : List (List Nat)) (avcc : List Nat)
    (h : buildAvcc seqHeaders pictHeaders = some avcc) :
    avcc.length = 6 + (seqHeaders.map (fun s => 2 + s.length)).sum + 1 +
      (pictHeaders.map (fun s => 2 + s.length)).sum ∧
    (seqHeaders.length ≤ 31 →
      avcc[5]? = some (Nat.lor (seqHeaders.length % 256) 0xe0) ∧
      Nat.lor (seqHeaders.length % 256) 0xe0 % 32 = seqHeaders.length) := by
  match hs : seqHeaders with
  | [] => simp [buildAvcc] at h
  | sh0 :: tl =>
    match hsh0 : sh0 with
    | [] => simp [buildAvcc] at h
    | [a0] => simp [buildAvcc] at h
    | [a0, a1] => simp [buildAvcc] at h
    | [a0, a1, a2] => simp [buildAvcc] at h
    | a0 :: a1 :: a2 :: a3 :: tl0 =>
      rw [buildAvcc] at h
      obtain rfl : _ = avcc := Option.some_inj.mp h
      constructor
      · simp only [List.length_append, nalChunks_length, List.length_cons, List.length_nil]
      · intro hle
        constructor
        · simp
        · have h256 : ((a0 :: a1 :: a2 :: a3 :: tl0) :: tl).length % 256 =
              ((a0 :: a1 :: a2 :: a3 :: tl0) :: tl).length :=
            Nat.mod_eq_of_lt (by omega)
          rw [h256]
          exact lor224_mod32 _ hle

/-- C7 (amended, witness): the amended statement evaluated on one 4-byte
sequence header and one 1-byte picture header. -/
theorem buildAvcc_spec_witness :
    buildAvcc [[0x67, 0x42, 0x00, 0x1e]] [[0x68]] =
      some [0x01, 0x42, 0x00, 0x1e, 0xff, 0xe1, 0, 4, 0x67, 0x42, 0x00, 0x1e, 1, 0, 1, 0x68] ∧
    (([0x01, 0x42, 0x00, 0x1e, 0xff, 0xe1, 0, 4, 0x67, 0x42, 0x00, 0x1e, 1, 0, 1,
       0x68] : List Nat).length =
        6 + (([[0x67, 0x42, 0x00, 0x1e]] : List (List Nat)).map (fun s => 2 + s.length)).sum +
          1 + (([[0x68]] : List (List Nat)).map (fun s => 2 + s.length)).sum ∧
     (([[0x67, 0x42, 0x00, 0x1e]] : List (List Nat)).length ≤ 31 →
       ([0x01, 0x42, 0x00, 0x1e, 0xff, 0xe1, 0, 4, 0x67, 0x42, 0x00, 0x1e, 1, 0, 1,
         0x68] : List Nat)[5]? =
           some (Nat.lor (([[0x67, 0x42, 0x00, 0x1e]] : List (List Nat)).length % 256) 0xe0) ∧
       Nat.lor (([[0x67, 0x42, 0x00, 0x1e]] : List (List Nat)).length % 256) 0xe0 % 32 =
         ([[0x67, 0x42, 0x00, 0x1e]] : List (List Nat)).length)) :=
  ⟨by decide,
   buildAvcc_spec [[0x67, 0x42, 0x00, 0x1e]] [[0x68]]
     [0x01, 0x42, 0x00, 0x1e, 0xff, 0xe1, 0, 4, 0x67, 0x42, 0x00, 0x1e, 1, 0, 1, 0x68]
     (by decide)⟩

theorem memOfGetElem (l : List Timestamp) (n : Nat) (a : Timestamp)
    (h : l[n]? = some a) : a ∈ l := by
  obtain ⟨hn, rfl⟩ := List.getElem?_eq_some.mp h
  exact List.getElem_mem hn

theorem minByTicksGo_spec (ts : List Timestamp) :
    ∀ (i : Nat) (b : Nat × Timestamp),
      (minByTicksGo i b ts = b ∨
        ∃ k, ts[k]? = some (minByTicksGo i b ts).2 ∧ (minByTicksGo i b ts).1 = i + k) ∧
      (minByTicksGo i b ts).2.ticks ≤ b.2.ticks ∧
      (∀ x ∈ ts, (minByTicksGo i b ts).2.ticks ≤ x.ticks) := by
  induction ts with
  | nil =>
    intro i b
    refine ⟨Or.inl rfl, le_refl _, ?_⟩
    intro x hx
    simp at hx
  | cons t ts ih =>
    intro i b
    have hgo : minByTicksGo i b (t :: ts) =
        minByTicksGo (i + 1) (if t.ticks < b.2.ticks then (i, t) else b) ts := rfl
    obtain ⟨hmem, hle, hall⟩ := ih (i + 1) (if t.ticks < b.2.ticks then (i, t) else b)
    rw [hgo]
    have hble : (if t.ticks < b.2.ticks then (i, t) else b).2.ticks ≤ b.2.ticks := by
      by_cases hc : t.ticks < b.2.ticks
      · simp only [if_pos hc]
        omega
      · simp only [if_neg hc]
        exact le_refl _
    have hbt : (if t.ticks < b.2.ticks then (i, t) else b).2.ticks ≤ t.ticks := by
      by_cases hc : t.ticks < b.2.ticks
      · simp only [if_pos hc]
        exact le_refl _
      · simp only [if_neg hc]
        omega
    refine ⟨?_, le_trans hle hble, ?_⟩
    · rcases hmem with heq | ⟨k, hk1, hk2⟩
      · by_cases hc : t.ticks < b.2.ticks
        · right
          refine ⟨0, ?_, ?_⟩
          · rw [heq]
            simp [if_pos hc]
          · rw [heq]
            simp [if_pos hc]
        · left
          rw [heq]
          simp [if_neg hc]
      · right
        refine ⟨k + 1, ?_, ?_⟩
        · rw [List.getElem?_cons_succ]
          exact hk1
        · omega
    · intro x hx
      rcases List.mem_cons.mp hx with rfl | hx2
      · exact le_trans hle hbt
      · exact hall x hx2

theorem minByTicks_spec (l : List Timestamp) (j : Nat) (m : Timestamp)
    (h : minByTicks l = some (j, m)) :
    l[j]? = some m ∧ ∀ x ∈ l, m.ticks ≤ x.ticks := by
  cases l with
  | nil => simp [minByTicks] at h
  | cons t ts =>
    have h2 : minByTicksGo 1 (0, t) ts = (j, m) := by
      simpa [minByTicks] using h
    obtain ⟨hmem, hle, hall⟩ := minByTicksGo_spec ts 1 (0, t)
    rw [h2] at hmem hle hall
    constructor
    · rcases hmem with heq | ⟨k, hk1, hk2⟩
      · have hj : j = 0 := congrArg Prod.fst heq
        have hm : m = t := congrArg Prod.snd heq
        subst hj
        subst hm
        simp
      · have hj : j = k + 1 := by omega
        subst hj
        rw [List.getElem?_cons_succ]
        exact hk1
    · intro x hx
      rcases List.mem_cons.mp hx with rfl | hx2
      · exact hle
      · exact hall x hx2

theorem pruneLoop_lower (l : Timestamp) (q : List Timestamp) :
    ∀ x ∈ pruneLoop l q, l.ticks ≤ x.ticks := by
  induction q with
  | nil =>
    intro x hx
    simp [pruneLoop] at hx
  | cons a as ih =>
    intro x hx
    by_cases h : l.ticks ≤ a.ticks
    · simp only [pruneLoop, if_pos h] at hx
      rcases List.mem_cons.mp hx with rfl | hx2
      · exact h
      · exact ih x hx2
    · simp only [pruneLoop, if_neg h] at hx
      exact ih x hx

theorem finishVideoLoop_ok (queue r q : List Timestamp) (next : Timestamp)
    (rest : List Timestamp) (h : finishVideoLoop queue r = .ok q next rest) :
    q = queue ∧ rest = r ∧ ∃ j, minByTicks queue = some (j, next) := by
  unfold finishVideoLoop at h
  cases hm : minByTicks queue with
  | none =>
    simp only [hm] at h
    exact LoopResult.noConfusion h
  | some pair =>
    obtain ⟨j, m⟩ := pair
    simp only [hm] at h
    injection h with h1 h2 h3
    exact ⟨h1.symm, h3.symm, j, by rw [h2]⟩

theorem decodeVideoLoop_ok_min (last : Option Timestamp) (fd : Option Int) :
    ∀ (input queue q : List Timestamp) (next : Timestamp) (rest : List Timestamp),
      decodeVideoLoop last fd queue input = .ok q next rest →
      ∃ j, minByTicks q = some (j, next) := by
  intro input
  induction input with
  | nil =>
    intro queue q next rest h
    cases hbs : breakState fd last queue with
    | panicNow => simp [decodeVideoLoop, hbs] at h
    | cont => simp [decodeVideoLoop, hbs] at h
    | brk =>
      simp only [decodeVideoLoop, hbs] at h
      obtain ⟨rfl, -, hmin⟩ := finishVideoLoop_ok _ _ _ _ _ h
      exact hmin
  | cons t rest0 ih =>
    intro queue q next rest h
    cases hbs : breakState fd last queue with
    | panicNow => simp [decodeVideoLoop, hbs] at h
    | brk =>
      simp only [decodeVideoLoop, hbs] at h
      obtain ⟨rfl, -, hmin⟩ := finishVideoLoop_ok _ _ _ _ _ h
      exact hmin
    | cont =>
      simp only [decodeVideoLoop, hbs] at h
      exact ih _ _ _ _ h

theorem decodeVideoLoop_ok_bound (l : Timestamp) (fd : Option Int) :
    ∀ (input queue q : List Timestamp) (next : Timestamp) (rest : List Timestamp),
      (∀ x ∈ queue, l.ticks ≤ x.ticks) →
      decodeVideoLoop (some l) fd queue input = .ok q next rest →
      ∀ x ∈ q, l.ticks ≤ x.ticks := by
  intro input
  induction input with
  | nil =>
    intro queue q next rest hq h
    cases hbs : breakState fd (some l) queue with
    | panicNow => simp [decodeVideoLoop, hbs] at h
    | cont => simp [decodeVideoLoop, hbs] at h
    | brk =>
      simp only [decodeVideoLoop, hbs] at h
      obtain ⟨rfl, -, -⟩ := finishVideoLoop_ok _ _ _ _ _ h
      exact hq
  | cons t rest0 ih =>
    intro queue q next rest hq h
    cases hbs : breakState fd (some l) queue with
    | panicNow => simp [decodeVideoLoop, hbs] at h
    | brk =>
      simp only [decodeVideoLoop, hbs] at h
      obtain ⟨rfl, -, -⟩ := finishVideoLoop_ok _ _ _ _ _ h
      exact hq
    | cont =>
      simp only [decodeVideoLoop, hbs] at h
      refine ih _ _ _ _ ?_ h
      intro x hx
      exact pruneLoop_lower l _ x (by simpa [prune] using hx)

theorem advanceRest_ok_inv (p : Player) (v : VideoPlayerInfo) (f : DecodedFrame)
    (p2 : Player) (hv : p.video = some v) (h : p.advanceRest = .ok f p2) :
    ∃ j m, minByTicks v.frames = some (j, m) ∧ f.videoFrame = some m ∧
      p2.video = some ⟨v.frames.eraseIdx j⟩ ∧
      p2.lastFramePresentationTime = p.nextFramePresentationTime ∧
      p2.nextFramePresentationTime = p.nextFramePresentationTime ∧
      p2.frameDelay = p.frameDelay := by
  unfold Player.advanceRest at h
  simp only [hv] at h
  cases hm : minByTicks v.frames with
  | none =>
    simp only [hm] at h
    exact AdvanceResult.noConfusion h
  | some pair =>
    obtain ⟨j, m⟩ := pair
    simp only [hm] at h
    refine ⟨j, m, rfl, ?_⟩
    cases ha : p.audio with
    | none =>
      simp only [ha] at h
      injection h with h1 h2
      subst h2
      subst h1
      exact ⟨rfl, rfl, rfl, rfl, rfl⟩
    | some audio =>
      simp only [ha] at h
      cases hs : audio.samples with
      | none =>
        simp only [hs] at h
        exact AdvanceResult.noConfusion h
      | some s =>
        simp only [hs] at h
        injection h with h1 h2
        subst h2
        subst h1
        exact ⟨rfl, rfl, rfl, rfl, rfl⟩

theorem advanceRest_ok_audio (p : Player) (f : DecodedFrame) (p2 : Player)
    (a : AudioPlayerInfo) (ha : p.audio = some a) (h : p.advanceRest = .ok f p2) :
    ∃ s, a.samples = some s ∧ f.audioSamples = some s ∧ p2.audio = some ⟨none⟩ := by
  unfold Player.advanceRest at h
  cases hv : p.video with
  | some video =>
    simp only [hv] at h
    cases hm : minByTicks video.frames with
    | none =>
      simp only [hm] at h
      exact AdvanceResult.noConfusion h
    | some pair =>
      obtain ⟨j, m⟩ := pair
      simp only [hm, ha] at h
      cases hs : a.samples with
      | none =>
        simp only [hs] at h
        exact AdvanceResult.noConfusion h
      | some s =>
        simp only [hs] at h
        injection h with h1 h2
        subst h2
        subst h1
        exact ⟨s, rfl, rfl, rfl⟩
  | none =>
    simp only [hv, ha] at h
    cases hs : a.samples with
    | none =>
      simp only [hs] at h
      exact AdvanceResult.noConfusion h
    | some s =>
      simp only [hs] at h
      injection h with h1 h2
      subst h2
      subst h1
      exact ⟨s, rfl, rfl, rfl⟩

theorem advance_ok_cases (p : Player) (f : DecodedFrame) (p2 : Player)
    (h : p.advance = .ok f p2) :
    (p.lastFramePresentationTime = none ∧ p.advanceRest = .ok f p2) ∨
    (∃ l n, p.lastFramePresentationTime = some l ∧ p.nextFramePresentationTime = some n ∧
      Player.advanceRest { p with frameDelay := some (n.ticks - l.ticks) } = .ok f p2) := by
  unfold Player.advance at h
  cases hl : p.lastFramePresentationTime with
  | none =>
    simp only [hl] at h
    exact Or.inl ⟨rfl, h⟩
  | some l =>
    cases hn : p.nextFramePresentationTime with
    | none =>
      simp only [hl, hn] at h
      exact AdvanceResult.noConfusion h
    | some n =>
      simp only [hl, hn] at h
      exact Or.inr ⟨l, n, rfl, rfl, h⟩

theorem decodeFrame_ok_inv (p : Player) (s : List Timestamp) (ai : List (List Int))
    (v : VideoPlayerInfo) (p1 : Player) (rest : List Timestamp)
    (hv : p.video = some v) (h : p.decodeFrame s ai = .ok p1 rest) :
    ∃ q next,
      decodeVideoLoop p.lastFramePresentationTime p.frameDelay v.frames s =
        .ok q next rest ∧
      p1.video = some ⟨q⟩ ∧ p1.nextFramePresentationTime = some next ∧
      p1.lastFramePresentationTime = p.lastFramePresentationTime ∧
      p1.frameDelay = p.frameDelay ∧
      p1.audio = (p.audio.map (fun _ => (⟨some ai⟩ : AudioPlayerInfo))) := by
  unfold Player.decodeFrame at h
  simp only [hv] at h
  cases hloop : decodeVideoLoop p.lastFramePresentationTime p.frameDelay v.frames s with
  | panic =>
    simp only [hloop] at h
    exact DecodeResult.noConfusion h
  | err q =>
    simp only [hloop] at h
    exact DecodeResult.noConfusion h
  | ok q next rest0 =>
    simp only [hloop] at h
    cases ha : p.audio with
    | none =>
      simp only [ha] at h
      injection h with h1 h2
      subst h2
      subst h1
      exact ⟨q, next, rfl, rfl, rfl, rfl, rfl, by simp [ha]⟩
    | some a =>
      simp only [ha] at h
      injection h with h1 h2
      subst h2
      subst h1
      exact ⟨q, next, rfl, rfl, rfl, rfl, rfl, by simp [ha]⟩

/-- C4: every successful advance() sets last_frame_presentation_time to the
next_frame_presentation_time held before the call, sets frame_delay to
next.ticks minus last.ticks whenever the last time was known, removes from
the video queue a frame of minimal presentation ticks and returns it, and
moves the audio sample accumulator out, leaving None behind. -/
theorem advance_ok_spec (p : Player) (v : VideoPlayerInfo) (f : DecodedFrame)
    (p2 : Player) (hv : p.video = some v) (h : p.advance = .ok f p2) :
    p2.lastFramePresentationTime = p.nextFramePresentationTime ∧
    (∀ l, p.lastFramePresentationTime = some l →
      ∃ n, p.nextFramePresentationTime = some n ∧
        p2.frameDelay = some (n.ticks - l.ticks)) ∧
    (∃ i m, v.frames[i]? = some m ∧ f.videoFrame = some m ∧
      p2.video = some ⟨v.frames.eraseIdx i⟩ ∧
      (∀ x ∈ v.frames, m.ticks ≤ x.ticks)) ∧
    (∀ a, p.audio = some a →
      ∃ s, a.samples = some s ∧ f.audioSamples = some s ∧
        p2.audio = some ⟨none⟩) := by
  rcases advance_ok_cases p f p2 h with ⟨hl, hrest⟩ | ⟨l, n, hl, hn, hrest⟩
  · obtain ⟨j, m, hmin, hfv, h2v, h2l, h2n, h2fd⟩ := advanceRest_ok_inv p v f p2 hv hrest
    obtain ⟨hidx, hall⟩ := minByTicks_spec v.frames j m hmin
    refine ⟨h2l, ?_, ⟨j, m, hidx, hfv, h2v, hall⟩, ?_⟩
    · intro l0 hl0
      rw [hl] at hl0
      exact Option.noConfusion hl0
    · intro a ha
      exact advanceRest_ok_audio p f p2 a ha hrest
  · have hv' : Player.video { p with frameDelay := some (n.ticks - l.ticks) } = some v := hv
    obtain ⟨j, m, hmin, hfv, h2v, h2l, h2n, h2fd⟩ :=
      advanceRest_ok_inv { p with frameDelay := some (n.ticks - l.ticks) } v f p2 hv' hrest
    obtain ⟨hidx, hall⟩ := minByTicks_spec v.frames j m hmin
    refine ⟨h2l, ?_, ⟨j, m, hidx, hfv, h2v, hall⟩, ?_⟩
    · intro l0 hl0
      obtain rfl : l = l0 := Option.some_inj.mp (hl.symm.trans hl0)
      exact ⟨n, hn, h2fd⟩
    · intro a ha
      exact advanceRest_ok_audio { p with frameDelay := some (n.ticks - l.ticks) } f p2 a ha hrest

/-- C4 (witness): the advance specification evaluated on a concrete player
with queued frames at 10 and 3 ticks and a pending audio accumulator. -/
theorem advance_ok_spec_witness :
    (playerC4.video = some ⟨[⟨10, 100⟩, ⟨3, 100⟩]⟩ ∧
     playerC4.advance = .ok ⟨some ⟨3, 100⟩, some [[1, 2]]⟩ playerC4After) ∧
    (playerC4After.lastFramePresentationTime = playerC4.nextFramePresentationTime ∧
     (∀ l, playerC4.lastFramePresentationTime = some l →
       ∃ n, playerC4.nextFramePresentationTime = some n ∧
         playerC4After.frameDelay = some (n.ticks - l.ticks)) ∧
     (∃ i m, ([⟨10, 100⟩, ⟨3, 100⟩] : List Timestamp)[i]? = some m ∧
       (⟨some ⟨3, 100⟩, some [[1, 2]]⟩ : DecodedFrame).videoFrame = some m ∧
       playerC4After.video = some ⟨([⟨10, 100⟩, ⟨3, 100⟩] : List Timestamp).eraseIdx i⟩ ∧
       (∀ x ∈ ([⟨10, 100⟩, ⟨3, 100⟩] : List Timestamp), m.ticks ≤ x.ticks)) ∧
     (∀ a, playerC4.audio = some a →
       ∃ s, a.samples = some s ∧
         (⟨some ⟨3, 100⟩, some [[1, 2]]⟩ : DecodedFrame).audioSamples = some s ∧
         playerC4After.audio = some ⟨none⟩)) :=
  ⟨⟨rfl, by decide⟩,
   advance_ok_spec playerC4 ⟨[⟨10, 100⟩, ⟨3, 100⟩]⟩ ⟨some ⟨3, 100⟩, some [[1, 2]]⟩
     playerC4After rfl (by decide)⟩

/-- C9: advance() is not atomic on error: on a player with a video track
whose decoded-frame queue is empty (and whose last and next presentation
times are known), the call returns failure, but frame_delay and
last_frame_presentation_time have already been overwritten before the empty
queue is detected. -/
theorem advance_err_mutates (p : Player) (v : VideoPlayerInfo) (l n : Timestamp)
    (hv : p.video = some v) (hq : v.frames = [])
    (hl : p.lastFramePresentationTime = some l)
    (hn : p.nextFramePresentationTime = some n) :
    p.advance = .err { p with frameDelay := some (n.ticks - l.ticks),
                              lastFramePresentationTime := some n } := by
  unfold Player.advance Player.advanceRest
  simp [hl, hn, hv, hq, minByTicks]

/-- C9 (witness): the state change on error shown on a concrete player: the
failing advance leaves a player that differs from the original. -/
theorem advance_err_mutates_witness :
    (playerC9.video = some ⟨[]⟩ ∧ playerC9.lastFramePresentationTime = some ⟨5, 100⟩ ∧
     playerC9.nextFramePresentationTime = some ⟨7, 100⟩) ∧
    playerC9.advance =
      .err { playerC9 with frameDelay := some ((7 : Int) - 5),
                           lastFramePresentationTime := some ⟨7, 100⟩ } ∧
    { playerC9 with frameDelay := some ((7 : Int) - 5),
                    lastFramePresentationTime := some ⟨7, 100⟩ } ≠ playerC9 :=
  ⟨⟨rfl, rfl, rfl⟩,
   advance_err_mutates playerC9 ⟨[]⟩ ⟨5, 100⟩ ⟨7, 100⟩ rfl rfl rfl rfl,
   by decide⟩

theorem decode_advance_round (p : Player) (s : List Timestamp) (p1 : Player)
    (rest : List Timestamp) (f : DecodedFrame) (p2 : Player)
    (hd : p.decodeFrame s [] = .ok p1 rest) (ha : p1.advance = .ok f p2) :
    ∃ t, f.videoFrame = some t ∧ RoundInv p2 t ∧
      ∀ m0, RoundInv p m0 → m0.ticks ≤ t.ticks := by
  cases hv : p.video with
  | none =>
    unfold Player.decodeFrame at hd
    simp only [hv] at hd
    exact DecodeResult.noConfusion hd
  | some v =>
    obtain ⟨q, next, hloop, h1v, h1n, h1l, h1fd, h1a⟩ :=
      decodeFrame_ok_inv p s [] v p1 rest hv hd
    have main : ∀ pp : Player, pp.video = some ⟨q⟩ →
        pp.nextFramePresentationTime = some next → pp.advanceRest = .ok f p2 →
        ∃ t, f.videoFrame = some t ∧ RoundInv p2 t ∧
          ∀ m0, RoundInv p m0 → m0.ticks ≤ t.ticks := by
      intro pp hppv hppn hrest
      obtain ⟨j, m, hmin, hfv, h2v, h2l, h2n, h2fd⟩ :=
        advanceRest_ok_inv pp ⟨q⟩ f p2 hppv hrest
      obtain ⟨j2, hmin2⟩ :=
        decodeVideoLoop_ok_min p.lastFramePresentationTime p.frameDelay s v.frames q
          next rest hloop
      have hpair : (j, m) = (j2, next) := Option.some_inj.mp (hmin.symm.trans hmin2)
      have hm : m = next := congrArg Prod.snd hpair
      subst hm
      obtain ⟨hidx, hall⟩ := minByTicks_spec q j m hmin
      refine ⟨m, hfv, ⟨⟨q.eraseIdx j⟩, h2v, by rw [h2l, hppn], ?_⟩, ?_⟩
      · intro x hx
        exact hall x ((List.eraseIdx_sublist q j).subset hx)
      · intro m0 hm0
        obtain ⟨v0, hv0, hl0, hq0⟩ := hm0
        obtain rfl : v0 = v := Option.some_inj.mp (hv0.symm.trans hv)
        rw [hl0] at hloop
        have hb := decodeVideoLoop_ok_bound m0 p.frameDelay s v0.frames q m rest hq0 hloop
        exact hb m (memOfGetElem q j m hidx)
    rcases advance_ok_cases p1 f p2 ha with ⟨hl1, hrest⟩ | ⟨l, n, hl1, hn1, hrest⟩
    · exact main p1 h1v h1n hrest
    · exact main { p1 with frameDelay := some (n.ticks - l.ticks) } h1v h1n hrest

theorem runAlt_chain (n : Nat) :
    ∀ (p : Player) (s : List Timestamp) (m : Timestamp),
      RoundInv p m →
      List.Chain' (fun a b : Timestamp => a.ticks ≤ b.ticks) (m :: runAlt p s n) := by
  induction n with
  | zero =>
    intro p s m _
    simp [runAlt]
  | succ n ih =>
    intro p s m hinv
    cases hd : p.decodeFrame s [] with
    | err p1 => simp [runAlt, hd]
    | panic => simp [runAlt, hd]
    | ok p1 rest =>
      cases ha : p1.advance with
      | err p1x => simp [runAlt, hd, ha]
      | panic => simp [runAlt, hd, ha]
      | ok f p2 =>
        obtain ⟨t, hfv, hinv2, hmono⟩ := decode_advance_round p s p1 rest f p2 hd ha
        have hch := ih p2 rest t hinv2
        have hmt := hmono m hinv
        simp only [runAlt, hd, ha, hfv]
        exact List.chain'_cons.mpr ⟨hmt, hch⟩

/-- C3 (amended): under the strict decode_frame / advance alternation of the
canonical driver, the sequence of presentation times of the returned video
frames is non-decreasing in ticks, from any starting player state and any
codec output stream. -/
theorem runAlt_monotone (p : Player) (s : List Timestamp) (n : Nat) :
    List.Chain' (fun a b : Timestamp => a.ticks ≤ b.ticks) (runAlt p s n) := by
  cases n with
  | zero => simp [runAlt]
  | succ n =>
    cases hd : p.decodeFrame s [] with
    | err p1 => simp [runAlt, hd]
    | panic => simp [runAlt, hd]
    | ok p1 rest =>
      cases ha : p1.advance with
      | err p1x => simp [runAlt, hd, ha]
      | panic => simp [runAlt, hd, ha]
      | ok f p2 =>
        obtain ⟨t, hfv, hinv2, hmono⟩ := decode_advance_round p s p1 rest f p2 hd ha
        simp only [runAlt, hd, ha, hfv]
        exact runAlt_chain n p2 rest t hinv2

/-- C3 (counterexample): the claim quantifies over every sequence of
successful advance calls, but when two advance calls run back to back,
last_frame_presentation_time falls behind the frames already returned, the
next decode prunes against that stale value, and a later frame with smaller
ticks is returned: the five successful advance calls of this trace return
5, 10, 12, 100, 13 — not non-decreasing. -/
theorem runOps_not_monotone :
    runOps playerFresh streamC3 opsC3 =
      [⟨5, 1000⟩, ⟨10, 1000⟩, ⟨12, 1000⟩, ⟨100, 1000⟩, ⟨13, 1000⟩] ∧
    ¬ List.Chain' (fun a b : Timestamp => a.ticks ≤ b.ticks)
        (runOps playerFresh streamC3 opsC3) := by
  have h : runOps playerFresh streamC3 opsC3 =
      [⟨5, 1000⟩, ⟨10, 1000⟩, ⟨12, 1000⟩, ⟨100, 1000⟩, ⟨13, 1000⟩] := by decide
  refine ⟨h, ?_⟩
  rw [h]
  simp [List.chain'_cons]

end RustMedia
